import Mathlib

/-!
Verification of the keyword scoring / ranking / extraction engine of the
medical case-report retrieval repository.

The definitions below are a shallow embedding of the Python sources:
  * `multi_case_rag.py`            (`MultiCaseMedicalRetriever.run`)
  * `intelligent_medical_extractor.py` (`IntelligentMedicalExtractor`)
  * `keyword_search.py`            (`KeywordSearcher`)

Strings are modelled by Lean `String` (a wrapper around `List Char`);
Python `str.lower()` is `pyLower`, Python's substring test `a in b` is
`strIn a b`, Python `str.split()` is `pySplit`.  Python integers are
modelled by `Int`.  Python's stable `list.sort(key=..., reverse=True)`
is modelled by the stable descending insertion sort `sortDesc`.
-/

/-- Python `str.lower()` (per-character ASCII lowering, as `str.lower`
behaves on the ASCII data this program handles). -/
def pyLower (s : String) : String := String.mk (s.data.map Char.toLower)

/-- A Haystack `Document`: a content string plus a string-to-string meta map. -/
structure Document where
  content : String
  meta : List (String × String)
deriving DecidableEq, Repr

/-- Python `doc.meta.get(key, default)`. -/
def metaGet (m : List (String × String)) (key dflt : String) : String :=
  match m.find? (fun p => p.1 == key) with
  | some p => p.2
  | none => dflt

/-- `listPre p s` is true iff `p` is a prefix of `s` (exact character match). -/
def listPre : List Char → List Char → Bool
  | [], _ => true
  | _ :: _, [] => false
  | a :: as, b :: bs => a == b && listPre as bs

/-- `listIn p s` is Python's substring test `p in s` on character lists. -/
def listIn (pat : List Char) : List Char → Bool
  | [] => listPre pat []
  | c :: cs => listPre pat (c :: cs) || listIn pat cs

/-- Python substring containment `pat in s` on strings. -/
def strIn (pat s : String) : Bool := listIn pat.data s.data

/-- Split a character list at whitespace, keeping (possibly empty) segments. -/
def splitWsChars : List Char → List (List Char)
  | [] => [[]]
  | c :: cs =>
    if c.isWhitespace then [] :: splitWsChars cs
    else
      match splitWsChars cs with
      | [] => [[c]]
      | h :: t => (c :: h) :: t

/-- Python `str.split()` with no argument: split on whitespace runs and
drop empty pieces. -/
def pySplit (s : String) : List String :=
  ((splitWsChars s.data).filter (fun w => ¬ w.isEmpty)).map String.mk

/-- The `medical_terms` dictionary of `MultiCaseMedicalRetriever.run`,
in source order (including the duplicated `'woman'`). -/
def medical_terms : List (String × List String) :=
  [ ("patient", ["patient", "woman", "woman", "man", "male", "female", "year-old"]),
    ("diagnosis", ["diagnosis", "cancer", "carcinoma", "metastases", "tumor", "disease"]),
    ("treatment", ["treatment", "chemotherapy", "radiation", "surgery", "ablation", "therapy"]),
    ("medication", ["medication", "drug", "propofol", "remifentanil", "lidocaine", "medicine"]),
    ("complications", ["complications", "respiratory", "distress", "ARDS", "pneumonitis", "problems"]),
    ("procedure", ["procedure", "surgery", "ablation", "PBSS", "screw", "operation"]),
    ("vitals", ["vitals", "blood pressure", "heart rate", "oxygen", "temperature", "pulse"]),
    ("lab", ["lab", "blood", "hemoglobin", "oxygen", "PaO2", "test", "results", "OSA",
             "obstructive sleep apnea", "CHF", "congestive heart failure"]) ]

/-- `score += 15` when the full lowercased query is a substring of the
lowercased document content. -/
def exactBonus (ql dl : String) : Int :=
  if strIn ql dl then 15 else 0

/-- `score += 8` per medical-term category whose terms hit both the query
and the document. -/
def categoryBonus (ql dl : String) : Int :=
  medical_terms.foldl
    (fun score cat =>
      if (cat.2.any fun term => strIn term ql) && (cat.2.any fun term => strIn term dl)
      then score + 8 else score) 0

/-- `score += 2` per query word longer than 2 characters appearing in the
document (substring containment, as in the source). -/
def wordBonus (ql dl : String) : Int :=
  (pySplit ql).foldl
    (fun score word =>
      if 2 < word.length ∧ strIn word dl then score + 2 else score) 0

/-- Special handling block for age queries: `score += 10`. -/
def specialAge (ql dl : String) : Int :=
  if (["age", "old", "year"].any fun term => strIn term ql) &&
     (["year-old", "years old", "age"].any fun term => strIn term dl)
  then 10 else 0

/-- Special handling block for cancer queries: `score += 10`. -/
def specialCancer (ql dl : String) : Int :=
  if (["cancer", "carcinoma", "tumor"].any fun term => strIn term ql) &&
     (["carcinoma", "tumor", "metastases", "cancer"].any fun term => strIn term dl)
  then 10 else 0

/-- Special handling block for breast queries: `score += 10`. -/
def specialBreast (ql dl : String) : Int :=
  if (["breast", "mammary"].any fun term => strIn term ql) && strIn "breast" dl
  then 10 else 0

/-- Special handling block for bone queries: `score += 10`. -/
def specialBone (ql dl : String) : Int :=
  if (["bone", "sacral", "sacroiliac"].any fun term => strIn term ql) &&
     (["sacral", "sacroiliac", "bone"].any fun term => strIn term dl)
  then 10 else 0

/-- The per-document score accumulated by `MultiCaseMedicalRetriever.run`:
the sum of the exact-phrase bonus, the category bonuses, the word-overlap
bonuses and the four special-handling bonuses. -/
def docScore (query : String) (doc : Document) : Int :=
  let ql := pyLower query
  let dl := pyLower doc.content
  exactBonus ql dl + categoryBonus ql dl + wordBonus ql dl +
    specialAge ql dl + specialCancer ql dl + specialBreast ql dl + specialBone ql dl

/-- Insert a scored item into a list so that it lands after every entry of
score `≥` its own and before the first strictly smaller entry. -/
def insertDesc {α : Type} (x : Int × α) : List (Int × α) → List (Int × α)
  | [] => [x]
  | y :: ys => if y.1 ≤ x.1 then x :: y :: ys else y :: insertDesc x ys

/-- Stable descending-by-score sort: the model of Python's stable
`scored_docs.sort(key=lambda x: x[0], reverse=True)`. -/
def sortDesc {α : Type} : List (Int × α) → List (Int × α)
  | [] => []
  | x :: xs => insertDesc x (sortDesc xs)

/-- The `scored_docs` list built by `MultiCaseMedicalRetriever.run` before
sorting: input order, one `(score, doc)` pair per corpus document. -/
def pyScored (query : String) (documents : List Document) : List (Int × Document) :=
  documents.map fun doc => (docScore query doc, doc)

/-- `MultiCaseMedicalRetriever.run`, kept as `(score, doc)` pairs: sort by
descending score, take the first `top_k` with positive score, and fall
back to the first `top_k` regardless of score when that is empty and the
corpus is not. -/
def runPairs (top_k : Nat) (query : String) (documents : List Document) :
    List (Int × Document) :=
  let sorted := sortDesc (pyScored query documents)
  let top_pairs := (sorted.take top_k).filter fun p => decide (0 < p.1)
  if top_pairs = [] ∧ documents ≠ [] then sorted.take top_k else top_pairs

/-- `MultiCaseMedicalRetriever.run`: the returned `documents` list. -/
def runRetriever (top_k : Nat) (query : String) (documents : List Document) :
    List Document :=
  let sorted := sortDesc (pyScored query documents)
  let top_docs := ((sorted.take top_k).filter fun p => decide (0 < p.1)).map Prod.snd
  if top_docs = [] ∧ documents ≠ [] then (sorted.take top_k).map Prod.snd else top_docs

/-- Whether the `if not top_docs and documents` fallback branch of
`MultiCaseMedicalRetriever.run` executes. -/
def usesFallback (top_k : Nat) (query : String) (documents : List Document) : Bool :=
  let sorted := sortDesc (pyScored query documents)
  let top_pairs := (sorted.take top_k).filter fun p => decide (0 < p.1)
  top_pairs.isEmpty && !documents.isEmpty


/-! ### Regex matchers for `intelligent_medical_extractor.py`

Each Python regular expression of `extraction_patterns` is embedded as a
deterministic matcher on character lists.  A matcher receives the input
suffix at the current scan position and returns the captured groups plus
the remaining input after the match.  Greedy repetition over a character
class followed by a disjoint class needs no backtracking and is embedded
by `takeWhile`/`dropWhile`; the two places where Python's backtracking
is observable (a class run bordering a `[^.]+` group, and `\s+` before a
lazy `([^.]+?)` group) are embedded explicitly below.  `re.IGNORECASE`
is modelled by comparing lowered characters while capturing the original
text, exactly as `re.findall` returns original-case group text. -/

/-- A value produced by `re.findall`: a plain string for patterns with at
most one group, a tuple (here: a pair) for two-group patterns. -/
inductive PyVal
  | s : String → PyVal
  | pair : String → String → PyVal
deriving DecidableEq, Repr

/-- Case-insensitive literal: drop the literal `pat` from the front of the
input, if it matches there. -/
def ciDrop : List Char → List Char → Option (List Char)
  | [], s => some s
  | p :: ps, c :: cs => if p.toLower == c.toLower then ciDrop ps cs else none
  | _ :: _, [] => none

/-- Case-insensitive literal returning the matched original text. -/
def ciLit (lit : String) (s : List Char) : Option (List Char × List Char) :=
  match ciDrop lit.data s with
  | some rest => some (s.take lit.data.length, rest)
  | none => none

/-- Ordered alternation of case-insensitive literals: the first
alternative that matches wins, as in Python regex alternation. -/
def ciAlt (lits : List String) (s : List Char) : Option (List Char × List Char) :=
  match lits with
  | [] => none
  | l :: ls =>
    match ciLit l s with
    | some r => some r
    | none => ciAlt ls s

/-- Greedy `(\d+)`. -/
def digits1 (s : List Char) : Option (List Char × List Char) :=
  let d := s.takeWhile Char.isDigit
  if d.isEmpty then none else some (d, s.dropWhile Char.isDigit)

/-- Optional `[s]?` / `s?` (greedy, case-insensitive). -/
def optS : List Char → List Char
  | [] => []
  | c :: cs => if c.toLower == 's' then cs else c :: cs

/-- Greedy `\s*`. -/
def skipWs (s : List Char) : List Char := s.dropWhile Char.isWhitespace

/-- `\s+` before a literal: at least one whitespace character, then skip
the whole run (exact, since the following literal starts with
non-whitespace). -/
def ws1Drop (s : List Char) : Option (List Char) :=
  match s with
  | c :: cs => if c.isWhitespace then some (cs.dropWhile Char.isWhitespace) else none
  | [] => none

/-- `\s+` capturing the consumed run (used inside capture groups). -/
def wsRun1 (s : List Char) : Option (List Char × List Char) :=
  match s with
  | c :: cs =>
    if c.isWhitespace then
      some ((c :: cs).takeWhile Char.isWhitespace, (c :: cs).dropWhile Char.isWhitespace)
    else none
  | [] => none

/-- Greedy `\w+` (word characters; exact because every use site follows it
with `\s+`, and word and whitespace characters are disjoint). -/
def isWordChar (c : Char) : Bool := c.isAlphanum || c == '_'

/-- Greedy `\w+` returning the word run. -/
def wplus (s : List Char) : Option (List Char × List Char) :=
  let w := s.takeWhile isWordChar
  if w.isEmpty then none else some (w, s.dropWhile isWordChar)

/-- The `[:\s]` character class. -/
def isColonWs (c : Char) : Bool := c == ':' || c.isWhitespace

/-- Greedy `C+` followed by a greedy group `([^.]+)` where `C ⊆ [^.]`:
take the maximal class run, then the maximal dot-free run as the group;
when the remainder after the maximal run starts with a dot (or is empty)
Python backtracks exactly one class character into the group, which then
cannot grow further. -/
def plusClassThenNonDot (cls : Char → Bool) (s : List Char) : Option (List Char × List Char) :=
  let run := s.takeWhile cls
  let rest := s.dropWhile cls
  if run.isEmpty then none
  else
    match rest with
    | c :: cs =>
      if c == '.' then
        match run.reverse with
        | [] => none
        | lastc :: revInit => if revInit.isEmpty then none else some ([lastc], c :: cs)
      else
        some ((c :: cs).takeWhile (fun d => !(d == '.')), (c :: cs).dropWhile (fun d => !(d == '.')))
    | [] =>
      match run.reverse with
      | [] => none
      | lastc :: revInit => if revInit.isEmpty then none else some ([lastc], [])

/-- The non-capturing terminator `(?:,|\.|and)` of the lazy diagnosis
pattern, tried in alternation order. -/
def diagTerm (s : List Char) : Option (List Char) :=
  match s with
  | c :: cs =>
    if c == ',' then some cs
    else if c == '.' then some cs
    else ciDrop "and".data (c :: cs)
  | [] => none

/-- Lazy `([^.]+?)(?:,|\.|and)` after the first group character has been
consumed: stop at the first position where the terminator matches,
otherwise grow the group by one dot-free character. -/
def lazyLoop (acc : List Char) : List Char → Option (List Char × List Char)
  | [] => none
  | c :: cs =>
    match diagTerm (c :: cs) with
    | some rest => some (acc, rest)
    | none => if c == '.' then none else lazyLoop (acc ++ [c]) cs

/-- Lazy group `([^.]+?)(?:,|\.|and)`: at least one dot-free character. -/
def lazyGroup1 (s : List Char) : Option (List Char × List Char) :=
  match s with
  | [] => none
  | c :: cs => if c == '.' then none else lazyLoop [c] cs

/-- `\s+` directly followed by the lazy group: Python first takes the
maximal whitespace run, then (on failure) gives whitespace back to the
group one character at a time. -/
def wsLazyGo (runRev : List Char) (rest : List Char) : Option (List Char × List Char) :=
  match lazyGroup1 rest with
  | some r => some r
  | none =>
    match runRev with
    | [] => none
    | [_] => none
    | w :: ws' => wsLazyGo ws' (w :: rest)

/-- `\s+([^.]+?)(?:,|\.|and)`. -/
def wsPlusThenLazy (s : List Char) : Option (List Char × List Char) :=
  let run := s.takeWhile Char.isWhitespace
  if run.isEmpty then none
  else wsLazyGo run.reverse (s.dropWhile Char.isWhitespace)

/-- Generic model of `re.findall`: scan the input left to right; at each
position run the matcher; on success emit the captures and resume after
the match, otherwise advance one character.  Recursion is driven by a
fuel counter kept at least as large as the remaining input (every
embedded pattern consumes at least one character; the length guard only
serves totality). -/
def reFindAllAux {α : Type} (m : List Char → Option (α × List Char)) :
    Nat → List Char → List α
  | 0, _ => []
  | _ + 1, [] => []
  | fuel + 1, c :: cs =>
    match m (c :: cs) with
    | some (a, rest) =>
      if rest.length < cs.length + 1 then a :: reFindAllAux m fuel rest
      else a :: reFindAllAux m fuel cs
    | none => reFindAllAux m fuel cs

/-- `re.findall` of an embedded pattern over an input. -/
def reFindAll {α : Type} (m : List Char → Option (α × List Char)) (s : List Char) :
    List α :=
  reFindAllAux m s.length s

/-- `(\d+)-year-old`. -/
def ageM1 (s : List Char) : Option (PyVal × List Char) := do
  let (d, r1) ← digits1 s
  let r2 ← ciDrop "-year-old".data r1
  some (.s (String.mk d), r2)

/-- `(\d+)\s*year[s]?\s*old`. -/
def ageM2 (s : List Char) : Option (PyVal × List Char) := do
  let (d, r1) ← digits1 s
  let r2 ← ciDrop "year".data (skipWs r1)
  let r3 ← ciDrop "old".data (skipWs (optS r2))
  some (.s (String.mk d), r3)

/-- `age[:\s]+(\d+)` (the class run is exact: it cannot hold digits). -/
def ageM3 (s : List Char) : Option (PyVal × List Char) := do
  let r1 ← ciDrop "age".data s
  match r1 with
  | c :: cs =>
    if isColonWs c then do
      let (d, r3) ← digits1 ((c :: cs).dropWhile isColonWs)
      some (PyVal.s (String.mk d), r3)
    else none
  | [] => none

/-- `(\d+)\s*years?\s*of\s*age`. -/
def ageM4 (s : List Char) : Option (PyVal × List Char) := do
  let (d, r1) ← digits1 s
  let r2 ← ciDrop "year".data (skipWs r1)
  let r3 ← ciDrop "of".data (skipWs (optS r2))
  let r4 ← ciDrop "age".data (skipWs r3)
  some (.s (String.mk d), r4)

/-- `in\s*his\s*(\d+)s`. -/
def ageM5 (s : List Char) : Option (PyVal × List Char) := do
  let r1 ← ciDrop "in".data s
  let r2 ← ciDrop "his".data (skipWs r1)
  let (d, r3) ← digits1 (skipWs r2)
  match r3 with
  | c :: cs => if c.toLower == 's' then some (PyVal.s (String.mk d), cs) else none
  | [] => none

/-- `in\s*her\s*(\d+)s`. -/
def ageM6 (s : List Char) : Option (PyVal × List Char) := do
  let r1 ← ciDrop "in".data s
  let r2 ← ciDrop "her".data (skipWs r1)
  let (d, r3) ← digits1 (skipWs r2)
  match r3 with
  | c :: cs => if c.toLower == 's' then some (PyVal.s (String.mk d), cs) else none
  | [] => none

/-- The `(male|female|man|woman)` alternation, in source order. -/
def sexAlt (s : List Char) : Option (List Char × List Char) :=
  ciAlt ["male", "female", "man", "woman"] s

/-- `(\d+)-year-old\s*(male|female|man|woman)`. -/
def ageM7 (s : List Char) : Option (PyVal × List Char) := do
  let (d, r1) ← digits1 s
  let r2 ← ciDrop "-year-old".data r1
  let (w, r3) ← sexAlt (skipWs r2)
  some (.pair (String.mk d) (String.mk w), r3)

/-- `(\d+)\s*year[s]?\s*old\s*(male|female|man|woman)`. -/
def ageM8 (s : List Char) : Option (PyVal × List Char) := do
  let (d, r1) ← digits1 s
  let r2 ← ciDrop "year".data (skipWs r1)
  let r3 ← ciDrop "old".data (skipWs (optS r2))
  let (w, r4) ← sexAlt (skipWs r3)
  some (.pair (String.mk d) (String.mk w), r4)

/-- `extraction_patterns['age']`: the original pattern strings (inspected
by the normalization code of `_extract_ages`) paired with their
matchers. -/
def agePatterns : List (String × (List Char → Option (PyVal × List Char))) :=
  [ ("(\\d+)-year-old", ageM1),
    ("(\\d+)\\s*year[s]?\\s*old", ageM2),
    ("age[:\\s]+(\\d+)", ageM3),
    ("(\\d+)\\s*years?\\s*of\\s*age", ageM4),
    ("in\\s*his\\s*(\\d+)s", ageM5),
    ("in\\s*her\\s*(\\d+)s", ageM6),
    ("(\\d+)-year-old\\s*(male|female|man|woman)", ageM7),
    ("(\\d+)\\s*year[s]?\\s*old\\s*(male|female|man|woman)", ageM8) ]

/-- The per-match normalization of `_extract_ages`: tuples from the
`in his`/`in her` patterns would become `"<n>s"` (unreachable: those
patterns have one group, and the containment test is against the raw
pattern text which contains `in\s*his`, not `in his`); tuples whose
second entry holds a sex word become `"<n>-year-old <sex>"`; other
tuples are space-joined; plain strings pass through. -/
def normalizeAge (pat : String) (m : PyVal) : String :=
  match m with
  | .s str => str
  | .pair a b =>
    if strIn "in his" pat || strIn "in her" pat then a ++ "s"
    else if ["male", "female", "man", "woman"].any (fun term => strIn term (pyLower b)) then
      a ++ "-year-old " ++ b
    else a ++ " " ++ b

/-- `IntelligentMedicalExtractor._extract_ages`: run every age pattern on
every document, normalize each match, and deduplicate (`list(set(...))`). -/
def extract_ages (documents : List Document) : List String :=
  (documents.flatMap fun doc =>
    agePatterns.flatMap fun pm =>
      (reFindAll pm.2 doc.content.data).map (normalizeAge pm.1)).dedup

/-- Sex pattern 1: `(male|female|man|woman)`. -/
def sexM1 (s : List Char) : Option (PyVal × List Char) := do
  let (w, r) ← sexAlt s
  some (.s (String.mk w), r)

/-- Sex pattern 2: `(\d+)[-\s]year[s]?\s*old\s*(male|female|man|woman)`. -/
def sexM2 (s : List Char) : Option (PyVal × List Char) := do
  let (d, r1) ← digits1 s
  match r1 with
  | c :: cs =>
    if c == '-' || c.isWhitespace then do
      let r2 ← ciDrop "year".data cs
      let r3 ← ciDrop "old".data (skipWs (optS r2))
      let (w, r4) ← sexAlt (skipWs r3)
      some (PyVal.pair (String.mk d) (String.mk w), r4)
    else none
  | [] => none

/-- `extraction_patterns['sex']`. -/
def sexPatterns : List (List Char → Option (PyVal × List Char)) := [sexM1, sexM2]

/-- `IntelligentMedicalExtractor._extract_sex`: the raw `findall` results
are collected with no tuple normalization (`sexes.extend(matches)`), so a
two-group match stays a tuple, then `list(set(...))`. -/
def extract_sex (documents : List Document) : List PyVal :=
  (documents.flatMap fun doc =>
    sexPatterns.flatMap fun m => reFindAll m doc.content.data).dedup

/-- `diagnosis[:\s]+([^.]+)`. -/
def diagM1 (s : List Char) : Option (PyVal × List Char) := do
  let r1 ← ciDrop "diagnosis".data s
  let (g, r2) ← plusClassThenNonDot isColonWs r1
  some (.s (String.mk g), r2)

/-- `condition[:\s]+([^.]+)`. -/
def diagM2 (s : List Char) : Option (PyVal × List Char) := do
  let r1 ← ciDrop "condition".data s
  let (g, r2) ← plusClassThenNonDot isColonWs r1
  some (.s (String.mk g), r2)

/-- `history\s+of\s+([^.]+)`. -/
def diagM3 (s : List Char) : Option (PyVal × List Char) := do
  let r1 ← ciDrop "history".data s
  let r2 ← ws1Drop r1
  let r3 ← ciDrop "of".data r2
  let (g, r4) ← plusClassThenNonDot Char.isWhitespace r3
  some (.s (String.mk g), r4)

/-- `presented\s+with\s+([^.]+)`. -/
def diagM4 (s : List Char) : Option (PyVal × List Char) := do
  let r1 ← ciDrop "presented".data s
  let r2 ← ws1Drop r1
  let r3 ← ciDrop "with".data r2
  let (g, r4) ← plusClassThenNonDot Char.isWhitespace r3
  some (.s (String.mk g), r4)

/-- `with\s+a\s+medical\s+history\s+of\s+([^.]+)`. -/
def diagM5 (s : List Char) : Option (PyVal × List Char) := do
  let r1 ← ciDrop "with".data s
  let r2 ← ws1Drop r1
  let r3 ← ciDrop "a".data r2
  let r4 ← ws1Drop r3
  let r5 ← ciDrop "medical".data r4
  let r6 ← ws1Drop r5
  let r7 ← ciDrop "history".data r6
  let r8 ← ws1Drop r7
  let r9 ← ciDrop "of".data r8
  let (g, r10) ← plusClassThenNonDot Char.isWhitespace r9
  some (.s (String.mk g), r10)

/-- `history\s+of\s+([^.]+?)(?:,|\.|and)`. -/
def diagM6 (s : List Char) : Option (PyVal × List Char) := do
  let r1 ← ciDrop "history".data s
  let r2 ← ws1Drop r1
  let r3 ← ciDrop "of".data r2
  let (g, r4) ← wsPlusThenLazy r3
  some (.s (String.mk g), r4)

/-- The diagnosis keyword alternation of the three-word pattern. -/
def diagKeywords : List String :=
  ["cancer", "carcinoma", "disease", "failure", "apnea", "amyloidosis"]

/-- `(\w+\s+\w+\s+\w+)\s+(cancer|carcinoma|disease|failure|apnea|amyloidosis)`. -/
def diagM7 (s : List Char) : Option (PyVal × List Char) := do
  let (w1, r1) ← wplus s
  let (s1, r2) ← wsRun1 r1
  let (w2, r3) ← wplus r2
  let (s2, r4) ← wsRun1 r3
  let (w3, r5) ← wplus r4
  let r6 ← ws1Drop r5
  let (kw, r7) ← ciAlt diagKeywords r6
  some (.pair (String.mk (w1 ++ s1 ++ w2 ++ s2 ++ w3)) (String.mk kw), r7)

/-- `(obstructive\s+sleep\s+apnea|obstructive\s+sleep\s+apnoea)` (the two
alternatives share their prefix, so trying `apnea` before `apnoea` at the
shared tail is equivalent to the original left-to-right alternation). -/
def diagM8 (s : List Char) : Option (PyVal × List Char) := do
  let (a, r1) ← ciLit "obstructive" s
  let (s1, r2) ← wsRun1 r1
  let (b, r3) ← ciLit "sleep" r2
  let (s2, r4) ← wsRun1 r3
  let (c, r5) ← ciAlt ["apnea", "apnoea"] r4
  some (.s (String.mk (a ++ s1 ++ b ++ s2 ++ c)), r5)

/-- `(heart\s+failure)`. -/
def diagM9 (s : List Char) : Option (PyVal × List Char) := do
  let (a, r1) ← ciLit "heart" s
  let (s1, r2) ← wsRun1 r1
  let (b, r3) ← ciLit "failure" r2
  some (.s (String.mk (a ++ s1 ++ b)), r3)

/-- `(coronary\s+artery\s+disease)`. -/
def diagM10 (s : List Char) : Option (PyVal × List Char) := do
  let (a, r1) ← ciLit "coronary" s
  let (s1, r2) ← wsRun1 r1
  let (b, r3) ← ciLit "artery" r2
  let (s2, r4) ← wsRun1 r3
  let (c, r5) ← ciLit "disease" r4
  some (.s (String.mk (a ++ s1 ++ b ++ s2 ++ c)), r5)

/-- `(diabetes\s+mellitus)`. -/
def diagM11 (s : List Char) : Option (PyVal × List Char) := do
  let (a, r1) ← ciLit "diabetes" s
  let (s1, r2) ← wsRun1 r1
  let (b, r3) ← ciLit "mellitus" r2
  some (.s (String.mk (a ++ s1 ++ b)), r3)

/-- `(hypertension)`. -/
def diagM12 (s : List Char) : Option (PyVal × List Char) := do
  let (a, r1) ← ciLit "hypertension" s
  some (.s (String.mk a), r1)

/-- `(atrial\s+fibrillation)`. -/
def diagM13 (s : List Char) : Option (PyVal × List Char) := do
  let (a, r1) ← ciLit "atrial" s
  let (s1, r2) ← wsRun1 r1
  let (b, r3) ← ciLit "fibrillation" r2
  some (.s (String.mk (a ++ s1 ++ b)), r3)

/-- `extraction_patterns['diagnosis']`, in source order. -/
def diagPatterns : List (List Char → Option (PyVal × List Char)) :=
  [diagM1, diagM2, diagM3, diagM4, diagM5, diagM6, diagM7, diagM8, diagM9,
   diagM10, diagM11, diagM12, diagM13]

/-- Normalization of `_extract_diagnoses`: two-group tuples are joined
with a space, plain strings are stripped. -/
def normalizeDiag (m : PyVal) : String :=
  match m with
  | .s str => str.trim
  | .pair a b => a ++ " " ++ b

/-- `IntelligentMedicalExtractor._extract_diagnoses`. -/
def extract_diagnoses (documents : List Document) : List String :=
  (documents.flatMap fun doc =>
    diagPatterns.flatMap fun m =>
      (reFindAll m doc.content.data).map normalizeDiag).dedup

/-- `(mg|mcg|ml|units?)` in source order; `units?` is `unit` plus a
greedy optional `s`. -/
def unitAlt (s : List Char) : Option (List Char × List Char) :=
  match ciLit "mg" s with
  | some r => some r
  | none =>
    match ciLit "mcg" s with
    | some r => some r
    | none =>
      match ciLit "ml" s with
      | some r => some r
      | none =>
        match ciLit "unit" s with
        | some (t, rest) =>
          match rest with
          | c :: cs => if c.toLower == 's' then some (t ++ [c], cs) else some (t, c :: cs)
          | [] => some (t, [])
        | none => none

/-- `(\w+)\s+(\d+)\s*(mg|mcg|ml|units?)\s*(IV|PO|IM|SC)`. -/
def medM1 (s : List Char) : Option (List String × List Char) := do
  let (w, r1) ← wplus s
  let r2 ← ws1Drop r1
  let (d, r3) ← digits1 r2
  let (u, r4) ← unitAlt (skipWs r3)
  let (rt, r5) ← ciAlt ["IV", "PO", "IM", "SC"] (skipWs r4)
  some ([String.mk w, String.mk d, String.mk u, String.mk rt], r5)

/-- `(\w+)\s+(\d+)\s*(mg|mcg|ml|units?)` (appears twice in the source
pattern list). -/
def medM2 (s : List Char) : Option (List String × List Char) := do
  let (w, r1) ← wplus s
  let r2 ← ws1Drop r1
  let (d, r3) ← digits1 r2
  let (u, r4) ← unitAlt (skipWs r3)
  some ([String.mk w, String.mk d, String.mk u], r4)

/-- `(\w+)\s+(drip|infusion|injection)`. -/
def medM3 (s : List Char) : Option (List String × List Char) := do
  let (w, r1) ← wplus s
  let r2 ← ws1Drop r1
  let (k, r3) ← ciAlt ["drip", "infusion", "injection"] r2
  some ([String.mk w, String.mk k], r3)

/-- `(\w+)\s+(\d+)\s*(mg|mcg|ml|units?)/\s*(kg|min|hour)`. -/
def medM4 (s : List Char) : Option (List String × List Char) := do
  let (w, r1) ← wplus s
  let r2 ← ws1Drop r1
  let (d, r3) ← digits1 r2
  let (u, r4) ← unitAlt (skipWs r3)
  match r4 with
  | c :: cs =>
    if c == '/' then do
      let (per, r5) ← ciAlt ["kg", "min", "hour"] (skipWs cs)
      some ([String.mk w, String.mk d, String.mk u, String.mk per], r5)
    else none
  | [] => none

/-- `(propofol|remifentanil|rivaroxaban|naproxen|vasopressor)\s+(drip|infusion|injection|mg|mcg)`. -/
def medM5 (s : List Char) : Option (List String × List Char) := do
  let (n, r1) ← ciAlt ["propofol", "remifentanil", "rivaroxaban", "naproxen", "vasopressor"] s
  let r2 ← ws1Drop r1
  let (k, r3) ← ciAlt ["drip", "infusion", "injection", "mg", "mcg"] r2
  some ([String.mk n, String.mk k], r3)

/-- `(\w+)\s+(drip)`. -/
def medM7 (s : List Char) : Option (List String × List Char) := do
  let (w, r1) ← wplus s
  let r2 ← ws1Drop r1
  let (k, r3) ← ciLit "drip" r2
  some ([String.mk w, String.mk k], r3)

/-- `extraction_patterns['medications']`, in source order (the second and
the sixth entry are the same pattern). -/
def medPatterns : List (List Char → Option (List String × List Char)) :=
  [medM1, medM2, medM3, medM4, medM5, medM2, medM7]

/-- Normalization of `_extract_medications`: tuples of length `≥ 2` join
the first two groups, append a non-empty third group, and strip; shorter
tuples are dropped (no such pattern exists). -/
def normalizeMed (m : List String) : Option String :=
  match m with
  | m0 :: m1 :: rest =>
    let base := m0 ++ " " ++ m1
    let info :=
      match rest with
      | m2 :: _ => if m2.isEmpty then base else base ++ " " ++ m2
      | [] => base
    some info.trim
  | _ => none

/-- `IntelligentMedicalExtractor._extract_medications`. -/
def extract_medications (documents : List Document) : List String :=
  (documents.flatMap fun doc =>
    medPatterns.flatMap fun m =>
      (reFindAll m doc.content.data).filterMap normalizeMed).dedup

/-- `(surgery|operation|procedure|intervention)[:\s]+([^.]+)`. -/
def procM1 (s : List Char) : Option (PyVal × List Char) := do
  let (kw, r1) ← ciAlt ["surgery", "operation", "procedure", "intervention"] s
  let (g, r2) ← plusClassThenNonDot isColonWs r1
  some (.pair (String.mk kw) (String.mk g), r2)

/-- `performed\s+([^.]+)`. -/
def procM2 (s : List Char) : Option (PyVal × List Char) := do
  let r1 ← ciDrop "performed".data s
  let (g, r2) ← plusClassThenNonDot Char.isWhitespace r1
  some (.s (String.mk g), r2)

/-- `underwent\s+([^.]+)`. -/
def procM3 (s : List Char) : Option (PyVal × List Char) := do
  let r1 ← ciDrop "underwent".data s
  let (g, r2) ← plusClassThenNonDot Char.isWhitespace r1
  some (.s (String.mk g), r2)

/-- `placed\s+([^.]+)`. -/
def procM4 (s : List Char) : Option (PyVal × List Char) := do
  let r1 ← ciDrop "placed".data s
  let (g, r2) ← plusClassThenNonDot Char.isWhitespace r1
  some (.s (String.mk g), r2)

/-- `extraction_patterns['procedures']`. -/
def procPatterns : List (List Char → Option (PyVal × List Char)) :=
  [procM1, procM2, procM3, procM4]

/-- `_extract_procedures` match handling: tuples contribute each
non-empty group stripped, strings contribute themselves stripped. -/
def normalizeProc (m : PyVal) : List String :=
  match m with
  | .s str => [str.trim]
  | .pair a b => (([a, b].filter (fun x => ¬ x.isEmpty)).map String.trim)

/-- `IntelligentMedicalExtractor._extract_procedures`. -/
def extract_procedures (documents : List Document) : List String :=
  (documents.flatMap fun doc =>
    procPatterns.flatMap fun m =>
      (reFindAll m doc.content.data).flatMap normalizeProc).dedup

/-- `complication[:\s]+([^.]+)`. -/
def compM1 (s : List Char) : Option (String × List Char) := do
  let r1 ← ciDrop "complication".data s
  let (g, r2) ← plusClassThenNonDot isColonWs r1
  some (String.mk g, r2)

/-- `developed\s+([^.]+)`. -/
def compM2 (s : List Char) : Option (String × List Char) := do
  let r1 ← ciDrop "developed".data s
  let (g, r2) ← plusClassThenNonDot Char.isWhitespace r1
  some (String.mk g, r2)

/-- `experienced\s+([^.]+)`. -/
def compM3 (s : List Char) : Option (String × List Char) := do
  let r1 ← ciDrop "experienced".data s
  let (g, r2) ← plusClassThenNonDot Char.isWhitespace r1
  some (String.mk g, r2)

/-- `occurred[:\s]+([^.]+)`. -/
def compM4 (s : List Char) : Option (String × List Char) := do
  let r1 ← ciDrop "occurred".data s
  let (g, r2) ← plusClassThenNonDot isColonWs r1
  some (String.mk g, r2)

/-- `extraction_patterns['complications']`. -/
def compPatterns : List (List Char → Option (String × List Char)) :=
  [compM1, compM2, compM3, compM4]

/-- `IntelligentMedicalExtractor._extract_complications`: every match is
stripped, then `list(set(...))`. -/
def extract_complications (documents : List Document) : List String :=
  (documents.flatMap fun doc =>
    compPatterns.flatMap fun m =>
      (reFindAll m doc.content.data).map String.trim).dedup

/-- `outcome[:\s]+([^.]+)`. -/
def outM1 (s : List Char) : Option (String × List Char) := do
  let r1 ← ciDrop "outcome".data s
  let (g, r2) ← plusClassThenNonDot isColonWs r1
  some (String.mk g, r2)

/-- `result[:\s]+([^.]+)`. -/
def outM2 (s : List Char) : Option (String × List Char) := do
  let r1 ← ciDrop "result".data s
  let (g, r2) ← plusClassThenNonDot isColonWs r1
  some (String.mk g, r2)

/-- `discharged\s+([^.]+)`. -/
def outM3 (s : List Char) : Option (String × List Char) := do
  let r1 ← ciDrop "discharged".data s
  let (g, r2) ← plusClassThenNonDot Char.isWhitespace r1
  some (String.mk g, r2)

/-- `died|survived|recovered`: no capture group, so `findall` returns the
whole matched text. -/
def outM4 (s : List Char) : Option (String × List Char) := do
  let (w, r1) ← ciAlt ["died", "survived", "recovered"] s
  some (String.mk w, r1)

/-- `extraction_patterns['outcomes']`. -/
def outPatterns : List (List Char → Option (String × List Char)) :=
  [outM1, outM2, outM3, outM4]

/-- `IntelligentMedicalExtractor._extract_outcomes`. -/
def extract_outcomes (documents : List Document) : List String :=
  (documents.flatMap fun doc =>
    outPatterns.flatMap fun m =>
      (reFindAll m doc.content.data).map String.trim).dedup

/-- `IntelligentMedicalExtractor.extract_specific_info`: build the result
mapping by the source's sequence of query-keyword tests; a query that
mentions no category produces the empty mapping, silently.  Values are
lists of `PyVal` because `_extract_sex` can return tuples. -/
def extract_specific_info (documents : List Document) (query : String) :
    List (String × List PyVal) :=
  let query_lower := pyLower query
  (if ["age", "old", "year"].any (fun t => strIn t query_lower) then
    [("ages", (extract_ages documents).map PyVal.s)] else []) ++
  (if ["sex", "gender", "male", "female"].any (fun t => strIn t query_lower) then
    [("sex", extract_sex documents)] else []) ++
  (if ["diagnosis", "diagnoses", "condition", "disease", "diseases"].any
      (fun t => strIn t query_lower) then
    [("diagnoses", (extract_diagnoses documents).map PyVal.s)] else []) ++
  (if ["medication", "drug", "medicine"].any (fun t => strIn t query_lower) then
    [("medications", (extract_medications documents).map PyVal.s)] else []) ++
  (if ["procedure", "surgery", "operation"].any (fun t => strIn t query_lower) then
    [("procedures", (extract_procedures documents).map PyVal.s)] else []) ++
  (if ["complication", "problem", "issue"].any (fun t => strIn t query_lower) then
    [("complications", (extract_complications documents).map PyVal.s)] else []) ++
  (if ["outcome", "result", "discharge"].any (fun t => strIn t query_lower) then
    [("outcomes", (extract_outcomes documents).map PyVal.s)] else [])

/-- The keys of the `extraction_patterns` table of
`IntelligentMedicalExtractor`, in source order. -/
def extraction_categories : List String :=
  ["age", "sex", "diagnosis", "medications", "procedures", "complications", "outcomes"]

/-! ### `keyword_search.py` -/

/-- The `keyword_categories` dictionary of `KeywordSearcher`, in source
order. -/
def keyword_categories : List (String × List String) :=
  [ ("demographics",
     ["age", "old", "year", "male", "female", "man", "woman", "sex", "gender"]),
    ("diagnoses",
     ["diagnosis", "condition", "disease", "cancer", "carcinoma", "failure",
      "apnea", "amyloidosis", "diabetes", "hypertension", "fibrillation",
      "obstructive", "sleep", "heart", "coronary", "atrial", "cardiac"]),
    ("medications",
     ["medication", "drug", "medicine", "propofol", "remifentanil", "rivaroxaban",
      "naproxen", "vasopressor", "drip", "infusion", "injection", "mg", "mcg", "ml"]),
    ("procedures",
     ["procedure", "surgery", "operation", "intervention", "performed", "underwent",
      "placed", "PCI", "ablation", "intubation", "catheter", "endotracheal"]),
    ("complications",
     ["complication", "problem", "issue", "hypotension", "fibrillation", "pressure",
      "drop", "tachycardic", "bradycardic", "arrhythmia"]),
    ("outcomes",
     ["outcome", "result", "discharge", "died", "survived", "recovered", "improved",
      "transferred", "ICU", "SICU", "ward"]),
    ("vital_signs",
     ["blood pressure", "heart rate", "HR", "BP", "ABP", "bpm", "mm Hg", "oxygen",
      "saturation", "temperature", "pulse", "respiratory rate"]),
    ("lab_values",
     ["lab", "laboratory", "blood", "test", "result", "value", "level", "count",
      "hemoglobin", "hematocrit", "glucose", "creatinine", "BUN"]) ]

/-- One entry of a case's `matches` list in the search results. -/
structure MatchEntry where
  keyword : String
  count : Nat
  context : List String
deriving DecidableEq, Repr

/-- The per-case sub-dictionary of the search results. -/
structure CaseMatches where
  case_name : String
  matchList : List MatchEntry
  match_count : Nat
deriving DecidableEq, Repr

/-- The results dictionary of `KeywordSearcher.search_keywords`. -/
structure KWResults where
  keywords_found : List String
  keywords_not_found : List String
  matches_by_case : List (String × CaseMatches)
  total_matches : Nat
  case_reports_searched : Nat
deriving DecidableEq, Repr

/-- Start positions of the non-overlapping occurrences of the literal
`p :: ps` in `s` (the scan of `re.finditer` on an escaped keyword),
with `i` the absolute position of `s` in the searched string. -/
def occPosAux (p : Char) (ps : List Char) (s : List Char) (i : Nat) : List Nat :=
  match s with
  | [] => []
  | c :: cs =>
    if listPre (p :: ps) (c :: cs) then
      i :: occPosAux p ps (cs.drop ps.length) (i + ps.length + 1)
    else occPosAux p ps cs (i + 1)
  termination_by s.length
  decreasing_by
  · simp [List.length_drop]; omega
  · simp

/-- All match start positions of a literal pattern, as `re.findall` and
`re.finditer` deliver them; an empty pattern matches (with zero length)
at every position. -/
def occPositions (pat : List Char) (s : List Char) : List Nat :=
  match pat with
  | [] => List.range (s.length + 1)
  | p :: ps => occPosAux p ps s 0

/-- Whether the character at absolute position `i` is a word character
(`\w`), out-of-range positions counting as non-word. -/
def wordAt (s : List Char) (i : Nat) : Bool :=
  match s[i]? with
  | some c => isWordChar c
  | none => false

/-- Python's `\b`: a boundary lies at position `i` iff exactly one of the
characters around it is a word character. -/
def boundaryAt (s : List Char) (i : Nat) : Bool :=
  (if i = 0 then false else wordAt s (i - 1)) != wordAt s i

/-- Start positions for the exact-word mode `\b<keyword>\b`. -/
def occExactAux (p : Char) (ps : List Char) (whole s : List Char) (i : Nat) : List Nat :=
  match s with
  | [] => []
  | c :: cs =>
    if listPre (p :: ps) (c :: cs) && boundaryAt whole i &&
        boundaryAt whole (i + ps.length + 1) then
      i :: occExactAux p ps whole (cs.drop ps.length) (i + ps.length + 1)
    else occExactAux p ps whole cs (i + 1)
  termination_by s.length
  decreasing_by
  · simp [List.length_drop]; omega
  · simp

/-- All match start positions of `\b<keyword>\b` (an empty keyword
matches with zero length at every boundary). -/
def occExact (pat : List Char) (s : List Char) : List Nat :=
  match pat with
  | [] => (List.range (s.length + 1)).filter (fun i => boundaryAt s i)
  | p :: ps => occExactAux p ps s s 0

/-- `KeywordSearcher._get_keyword_context` with its default
`context_length = 50`: 50 characters of context on both sides of each
occurrence, stripped, first three contexts only. -/
def getKeywordContext (content keyword : List Char) : List String :=
  ((occPositions keyword content).map (fun st =>
    let a := st - 50
    let b := min content.length (st + keyword.length + 50)
    (String.mk ((content.drop a).take (b - a))).trim)).take 3

/-- The accumulator threaded through one document's keyword loop in
`search_keywords`: the case's `matches` list and `match_count`, plus the
global `keywords_found` / `keywords_not_found` lists. -/
structure KWScanState where
  entries : List MatchEntry
  count : Nat
  found : List String
  notFound : List String

/-- Python dictionary update `d[k] = v`: replace in place if the key
exists, append otherwise. -/
def dictSet (d : List (String × CaseMatches)) (k : String) (v : CaseMatches) :
    List (String × CaseMatches) :=
  match d with
  | [] => [(k, v)]
  | (k0, v0) :: rest =>
    if k0 == k then (k0, v) :: rest else (k0, v0) :: dictSet rest k v

/-- `KeywordSearcher.search_keywords`: count every keyword in every
document (case-insensitively unless `case_sensitive`, on word boundaries
iff `exact_match`), recording per-case matches with contexts, global
found/not-found keyword lists, and the total match count. -/
def search_keywords (documents : List Document) (keywords : List String)
    (case_sensitive exact_match : Bool) : KWResults :=
  let search_kws := keywords.map (fun k => if case_sensitive then k else pyLower k)
  documents.foldl
    (fun results doc =>
      let case_name := metaGet doc.meta "case_name" "Unknown Case"
      let content := if case_sensitive then doc.content else pyLower doc.content
      let st := (search_kws.zip keywords).foldl
        (fun (st : KWScanState) kk =>
          let cnt := if exact_match then (occExact kk.1.data content.data).length
                     else (occPositions kk.1.data content.data).length
          if cnt ≠ 0 then
            { entries := st.entries ++
                [⟨kk.2, cnt, getKeywordContext content.data kk.1.data⟩]
              count := st.count + cnt
              found := if st.found.contains kk.2 then st.found else st.found ++ [kk.2]
              notFound := st.notFound }
          else
            { entries := st.entries
              count := st.count
              found := st.found
              notFound := if st.notFound.contains kk.2 then st.notFound
                          else st.notFound ++ [kk.2] })
        ⟨[], 0, results.keywords_found, results.keywords_not_found⟩
      if st.entries ≠ [] then
        { keywords_found := st.found
          keywords_not_found := st.notFound
          matches_by_case := dictSet results.matches_by_case case_name
            ⟨case_name, st.entries, st.count⟩
          total_matches := results.total_matches + st.count
          case_reports_searched := results.case_reports_searched }
      else
        { results with keywords_found := st.found, keywords_not_found := st.notFound })
    ⟨[], [], [], 0, documents.length⟩

/-- The outcome of `KeywordSearcher.search_by_category`: either the error
dictionary `{'error': ...}` or a search-results dictionary. -/
inductive CatSearchOut
  | err : String → CatSearchOut
  | ok : KWResults → CatSearchOut
deriving DecidableEq, Repr

/-- The apostrophe character used by Python's `repr` of a string list
inside the error f-string. -/
def pyQuote : Char := Char.ofNat 39

/-- Python's `repr` of a list of plain strings, as interpolated by the
error message f-string. -/
def pyReprStrList (l : List String) : String :=
  "[" ++ String.intercalate ", " (l.map (fun k => pyQuote.toString ++ k ++ pyQuote.toString)) ++ "]"

/-- The fixed tail of the unknown-category error message, listing every
valid category name. -/
def categoryErrorTail : String :=
  "\" not found. Available categories: " ++ pyReprStrList (keyword_categories.map Prod.fst)

/-- The unknown-category error message of `search_by_category`:
`Category "<name>" not found. Available categories: [...]`. -/
def categoryErrorMsg (category : String) : String :=
  "Category \"" ++ category ++ categoryErrorTail

/-- `KeywordSearcher.search_by_category`: an explicit error for an
unknown category, otherwise a keyword search over the category's
keywords with the default flags. -/
def search_by_category (documents : List Document) (category : String) : CatSearchOut :=
  if (keyword_categories.map Prod.fst).contains category then
    CatSearchOut.ok (search_keywords documents
      (match keyword_categories.find? (fun p => p.1 == category) with
       | some p => p.2
       | none => []) false false)
  else
    CatSearchOut.err (categoryErrorMsg category)

/-- `KeywordSearcher.get_available_categories`. -/
def get_available_categories : List String := keyword_categories.map Prod.fst

/-! ### General lemmas about the stable descending sort and folds -/

theorem insertDesc_perm {α : Type} (x : Int × α) (l : List (Int × α)) :
    List.Perm (insertDesc x l) (x :: l) := by
  induction l with
  | nil => exact List.Perm.refl _
  | cons y ys ih =>
    by_cases h : y.1 ≤ x.1
    · simp only [insertDesc, if_pos h]
      exact List.Perm.refl _
    · simp only [insertDesc, if_neg h]
      exact (ih.cons y).trans (List.Perm.swap x y ys)

theorem sortDesc_perm {α : Type} (l : List (Int × α)) :
    List.Perm (sortDesc l) l := by
  induction l with
  | nil => exact List.Perm.refl _
  | cons x xs ih => exact (insertDesc_perm x (sortDesc xs)).trans (ih.cons x)

theorem mem_insertDesc {α : Type} {p x : Int × α} {l : List (Int × α)} :
    p ∈ insertDesc x l ↔ p = x ∨ p ∈ l := by
  rw [(insertDesc_perm x l).mem_iff, List.mem_cons]

theorem mem_sortDesc {α : Type} {p : Int × α} {l : List (Int × α)} :
    p ∈ sortDesc l ↔ p ∈ l := (sortDesc_perm l).mem_iff

theorem insertDesc_pairwise {α : Type} {x : Int × α} {l : List (Int × α)}
    (h : l.Pairwise (fun a b => b.1 ≤ a.1)) :
    (insertDesc x l).Pairwise (fun a b => b.1 ≤ a.1) := by
  induction l with
  | nil => simp [insertDesc]
  | cons y ys ih =>
    rw [List.pairwise_cons] at h
    by_cases hyx : y.1 ≤ x.1
    · simp only [insertDesc, if_pos hyx]
      refine List.Pairwise.cons ?_ (List.Pairwise.cons h.1 h.2)
      intro z hz
      rcases List.mem_cons.mp hz with rfl | hz
      · exact hyx
      · exact le_trans (h.1 z hz) hyx
    · simp only [insertDesc, if_neg hyx]
      refine List.Pairwise.cons ?_ (ih h.2)
      intro z hz
      rcases mem_insertDesc.mp hz with rfl | hz
      · exact le_of_lt (lt_of_not_le hyx)
      · exact h.1 z hz

theorem sortDesc_pairwise {α : Type} (l : List (Int × α)) :
    (sortDesc l).Pairwise (fun a b => b.1 ≤ a.1) := by
  induction l with
  | nil => simp [sortDesc]
  | cons x xs ih => exact insertDesc_pairwise ih

theorem filter_insertDesc {α : Type} (s : Int) (x : Int × α) (l : List (Int × α)) :
    (insertDesc x l).filter (fun p => p.1 == s) =
      if x.1 == s then x :: l.filter (fun p => p.1 == s)
      else l.filter (fun p => p.1 == s) := by
  induction l with
  | nil => by_cases hx : x.1 == s <;> simp [insertDesc, List.filter, hx]
  | cons y ys ih =>
    by_cases hyx : y.1 ≤ x.1
    · simp only [insertDesc, if_pos hyx]
      by_cases hx : x.1 == s
      · simp [List.filter, hx]
      · simp [List.filter, hx]
    · simp only [insertDesc, if_neg hyx]
      by_cases hx : x.1 == s
      · have hy : (y.1 == s) = false := by
          have hxs : x.1 = s := by exact_mod_cast beq_iff_eq.mp hx
          have : ¬ y.1 = s := by omega
          simpa using this
        simp [List.filter, hy, ih, hx]
      · by_cases hy : y.1 == s
        · simp [List.filter, hy, ih, hx]
        · simp [List.filter, hy, ih, hx]

theorem filter_sortDesc {α : Type} (s : Int) (l : List (Int × α)) :
    (sortDesc l).filter (fun p => p.1 == s) = l.filter (fun p => p.1 == s) := by
  induction l with
  | nil => rfl
  | cons x xs ih =>
    show (insertDesc x (sortDesc xs)).filter (fun p => p.1 == s) = _
    rw [filter_insertDesc]
    by_cases hx : x.1 == s
    · simp [List.filter, hx, ih]
    · simp [List.filter, hx, ih]

theorem sortDesc_of_const {α : Type} (c : Int) (l : List (Int × α))
    (h : ∀ p ∈ l, p.1 = c) : sortDesc l = l := by
  induction l with
  | nil => rfl
  | cons x xs ih =>
    have hxs : sortDesc xs = xs := ih (fun p hp => h p (List.mem_cons_of_mem x hp))
    show insertDesc x (sortDesc xs) = x :: xs
    rw [hxs]
    cases xs with
    | nil => rfl
    | cons y ys =>
      have hy : y.1 ≤ x.1 := by
        rw [h y (by simp), h x (by simp)]
      simp [insertDesc, hy]

theorem le_foldl_add {α : Type} (g : Int → α → Int) (h : ∀ a x, a ≤ g a x)
    (init : Int) (l : List α) : init ≤ l.foldl g init := by
  induction l generalizing init with
  | nil => exact le_refl _
  | cons x xs ih => exact le_trans (h init x) (ih (g init x))

theorem foldl_if_and_left_false {α : Type} (f g : α → Bool) (c : Int)
    (init : Int) (l : List α) (h : ∀ x ∈ l, f x = false) :
    l.foldl (fun a x => if f x && g x then a + c else a) init = init := by
  induction l generalizing init with
  | nil => rfl
  | cons x xs ih =>
    have hx : f x = false := h x (by simp)
    simp only [List.foldl, hx, Bool.false_and, Bool.false_eq_true, if_false]
    exact ih init (fun y hy => h y (List.mem_cons_of_mem x hy))

/-! ### Helper lemmas about the scorer and the retriever -/

theorem docScore_eq (query : String) (doc : Document) :
    docScore query doc =
      exactBonus (pyLower query) (pyLower doc.content) +
      categoryBonus (pyLower query) (pyLower doc.content) +
      wordBonus (pyLower query) (pyLower doc.content) +
      specialAge (pyLower query) (pyLower doc.content) +
      specialCancer (pyLower query) (pyLower doc.content) +
      specialBreast (pyLower query) (pyLower doc.content) +
      specialBone (pyLower query) (pyLower doc.content) := rfl

theorem exactBonus_nonneg (ql dl : String) : 0 ≤ exactBonus ql dl := by
  unfold exactBonus; split <;> norm_num

theorem categoryBonus_nonneg (ql dl : String) : 0 ≤ categoryBonus ql dl :=
  le_foldl_add _ (fun a x => by split <;> omega) 0 medical_terms

theorem wordBonus_nonneg (ql dl : String) : 0 ≤ wordBonus ql dl :=
  le_foldl_add _ (fun a x => by split <;> omega) 0 (pySplit ql)

theorem specialAge_nonneg (ql dl : String) : 0 ≤ specialAge ql dl := by
  unfold specialAge; split <;> norm_num

theorem specialCancer_nonneg (ql dl : String) : 0 ≤ specialCancer ql dl := by
  unfold specialCancer; split <;> norm_num

theorem specialBreast_nonneg (ql dl : String) : 0 ≤ specialBreast ql dl := by
  unfold specialBreast; split <;> norm_num

theorem specialBone_nonneg (ql dl : String) : 0 ≤ specialBone ql dl := by
  unfold specialBone; split <;> norm_num

theorem docScore_nonneg (query : String) (doc : Document) : 0 ≤ docScore query doc := by
  rw [docScore_eq]
  have h1 := exactBonus_nonneg (pyLower query) (pyLower doc.content)
  have h2 := categoryBonus_nonneg (pyLower query) (pyLower doc.content)
  have h3 := wordBonus_nonneg (pyLower query) (pyLower doc.content)
  have h4 := specialAge_nonneg (pyLower query) (pyLower doc.content)
  have h5 := specialCancer_nonneg (pyLower query) (pyLower doc.content)
  have h6 := specialBreast_nonneg (pyLower query) (pyLower doc.content)
  have h7 := specialBone_nonneg (pyLower query) (pyLower doc.content)
  linarith

theorem docScore_ge_15_of_exact (query : String) (doc : Document)
    (hm : strIn (pyLower query) (pyLower doc.content) = true) :
    15 ≤ docScore query doc := by
  rw [docScore_eq]
  have h1 : exactBonus (pyLower query) (pyLower doc.content) = 15 := by
    unfold exactBonus; rw [hm]; rfl
  have h2 := categoryBonus_nonneg (pyLower query) (pyLower doc.content)
  have h3 := wordBonus_nonneg (pyLower query) (pyLower doc.content)
  have h4 := specialAge_nonneg (pyLower query) (pyLower doc.content)
  have h5 := specialCancer_nonneg (pyLower query) (pyLower doc.content)
  have h6 := specialBreast_nonneg (pyLower query) (pyLower doc.content)
  have h7 := specialBone_nonneg (pyLower query) (pyLower doc.content)
  linarith

theorem runRetriever_eq_runPairs (top_k : Nat) (query : String) (documents : List Document) :
    runRetriever top_k query documents = (runPairs top_k query documents).map Prod.snd := by
  simp only [runRetriever, runPairs, List.map_eq_nil_iff]
  split <;> rfl

theorem mem_sortDesc_of_mem_runPairs {top_k : Nat} {query : String}
    {documents : List Document} {p : Int × Document}
    (h : p ∈ runPairs top_k query documents) :
    p ∈ sortDesc (pyScored query documents) := by
  simp only [runPairs] at h
  split at h
  · exact (List.take_sublist _ _).mem h
  · exact (List.take_sublist _ _).mem ((List.filter_sublist _).mem h)

theorem mem_pyScored {query : String} {documents : List Document} {p : Int × Document}
    (h : p ∈ pyScored query documents) :
    p.2 ∈ documents ∧ p.1 = docScore query p.2 := by
  simp only [pyScored, List.mem_map] at h
  obtain ⟨d, hd, rfl⟩ := h
  exact ⟨hd, rfl⟩

theorem runPairs_length_le (top_k : Nat) (query : String) (documents : List Document) :
    (runPairs top_k query documents).length ≤ top_k := by
  simp only [runPairs]
  split
  · exact List.length_take_le _ _
  · exact le_trans (List.length_filter_le _ _) (List.length_take_le _ _)

theorem runPairs_pairwise (top_k : Nat) (query : String) (documents : List Document) :
    (runPairs top_k query documents).Pairwise (fun a b => b.1 ≤ a.1) := by
  have hp := sortDesc_pairwise (pyScored query documents)
  simp only [runPairs]
  split
  · exact hp.sublist (List.take_sublist _ _)
  · exact hp.sublist ((List.filter_sublist _).trans (List.take_sublist _ _))

theorem listIn_nil_left (l : List Char) : listIn [] l = true := by
  cases l <;> rfl

theorem strIn_nil_left (s : String) : strIn "" s = true := listIn_nil_left s.data

theorem exactBonus_empty (dl : String) : exactBonus "" dl = 15 := by
  unfold exactBonus
  rw [strIn_nil_left]
  rfl

theorem categoryBonus_empty (dl : String) : categoryBonus "" dl = 0 :=
  foldl_if_and_left_false _ _ 8 0 medical_terms (by decide)

theorem wordBonus_empty (dl : String) : wordBonus "" dl = 0 := rfl

theorem specialAge_empty (dl : String) : specialAge "" dl = 0 := rfl

theorem specialCancer_empty (dl : String) : specialCancer "" dl = 0 := rfl

theorem specialBreast_empty (dl : String) : specialBreast "" dl = 0 := rfl

theorem specialBone_empty (dl : String) : specialBone "" dl = 0 := rfl

theorem docScore_empty_query (doc : Document) : docScore "" doc = 15 := by
  rw [docScore_eq]
  rw [show pyLower "" = "" from rfl]
  rw [exactBonus_empty, categoryBonus_empty, wordBonus_empty, specialAge_empty,
    specialCancer_empty, specialBreast_empty, specialBone_empty]
  norm_num

theorem map_snd_pyScored (query : String) (documents : List Document) :
    (pyScored query documents).map Prod.snd = documents := by
  simp only [pyScored, List.map_map]
  have h : List.map (Prod.snd ∘ fun doc => (docScore query doc, doc)) documents =
      List.map id documents := List.map_congr_left (fun d _ => rfl)
  rw [h, List.map_id]

theorem pyScored_ne_nil {query : String} {documents : List Document}
    (h : documents ≠ []) : pyScored query documents ≠ [] := by
  simpa [pyScored, List.map_eq_nil_iff] using h

theorem sortDesc_pyScored_const (query : String) (documents : List Document) (c : Int)
    (h : ∀ d ∈ documents, docScore query d = c) :
    sortDesc (pyScored query documents) = pyScored query documents :=
  sortDesc_of_const c _ (fun p hp => by
    obtain ⟨h1, h2⟩ := mem_pyScored hp
    rw [h2]; exact h p.2 h1)

theorem take_pyScored_ne_nil {top_k : Nat} {query : String} {documents : List Document}
    (h1 : documents ≠ []) (h2 : 0 < top_k) :
    (pyScored query documents).take top_k ≠ [] := by
  rw [Ne, List.take_eq_nil_iff]
  push_neg
  exact ⟨by omega, pyScored_ne_nil h1⟩

theorem fallback_iff_all_zero (top_k : Nat) (query : String) (documents : List Document)
    (h1 : documents ≠ []) (h2 : 0 < top_k) :
    usesFallback top_k query documents = true ↔
      ∀ d ∈ documents, docScore query d = 0 := by
  simp only [usesFallback]
  constructor
  · intro hf
    rw [Bool.and_eq_true] at hf
    have hempty : ((sortDesc (pyScored query documents)).take top_k).filter
        (fun p => decide (0 < p.1)) = [] := List.isEmpty_iff.mp hf.1
    have htake : ∀ p ∈ (sortDesc (pyScored query documents)).take top_k, p.1 ≤ 0 := by
      intro p hp
      have h := List.filter_eq_nil_iff.mp hempty p hp
      simpa using h
    cases hL : sortDesc (pyScored query documents) with
    | nil =>
      have hlen : (pyScored query documents).length = 0 := by
        rw [← (sortDesc_perm (pyScored query documents)).length_eq, hL]
        rfl
      exact absurd (List.length_eq_zero.mp hlen) (pyScored_ne_nil h1)
    | cons hd tl =>
      have hhd_mem : hd ∈ (sortDesc (pyScored query documents)).take top_k := by
        rw [hL]
        cases top_k with
        | zero => omega
        | succ n => exact List.mem_cons_self hd _
      have hhd0 : hd.1 = 0 := by
        have hub := htake hd hhd_mem
        have hlb : 0 ≤ hd.1 := by
          have hmem : hd ∈ sortDesc (pyScored query documents) := by
            rw [hL]; exact List.mem_cons_self hd tl
          obtain ⟨hmm, hsc⟩ := mem_pyScored (mem_sortDesc.mp hmem)
          rw [hsc]; exact docScore_nonneg query hd.2
        omega
      have hpw := sortDesc_pairwise (pyScored query documents)
      rw [hL, List.pairwise_cons] at hpw
      intro d hd'
      have hmem : (docScore query d, d) ∈ sortDesc (pyScored query documents) :=
        mem_sortDesc.mpr (List.mem_map_of_mem _ hd')
      rw [hL] at hmem
      rcases List.mem_cons.mp hmem with heq | hmem'
      · have := congrArg Prod.fst heq
        simpa [hhd0] using this
      · have hle : (docScore query d, d).1 ≤ hd.1 := hpw.1 _ hmem'
        have hge := docScore_nonneg query d
        simp only at hle
        omega
  · intro hz
    have hfil : ((sortDesc (pyScored query documents)).take top_k).filter
        (fun p => decide (0 < p.1)) = [] := by
      rw [List.filter_eq_nil_iff]
      intro p hp
      obtain ⟨hd', hsc⟩ := mem_pyScored (mem_sortDesc.mp (List.mem_of_mem_take hp))
      simp [hsc, hz p.2 hd']
    rw [hfil]
    cases documents with
    | nil => exact absurd rfl h1
    | cons a l => simp

theorem fallback_output (top_k : Nat) (query : String) (documents : List Document)
    (h1 : documents ≠ []) (h2 : 0 < top_k)
    (hf : usesFallback top_k query documents = true) :
    runRetriever top_k query documents = documents.take top_k := by
  have hz := (fallback_iff_all_zero top_k query documents h1 h2).mp hf
  have hsort : sortDesc (pyScored query documents) = pyScored query documents :=
    sortDesc_pyScored_const query documents 0 hz
  have hfil : ((pyScored query documents).take top_k).filter
      (fun p => decide (0 < p.1)) = [] := by
    rw [List.filter_eq_nil_iff]
    intro p hp
    obtain ⟨hd', hsc⟩ := mem_pyScored (List.mem_of_mem_take hp)
    simp [hsc, hz p.2 hd']
  simp only [runRetriever]
  rw [hsort, hfil]
  rw [if_pos ⟨rfl, h1⟩]
  rw [List.map_take, map_snd_pyScored]

/-! ### Substring lemmas for the error-message claim -/

theorem listPre_self (p : List Char) : listPre p p = true := by
  induction p with
  | nil => rfl
  | cons a as ih => simp [listPre, ih]

theorem listPre_append (p s t : List Char) (h : listPre p s = true) :
    listPre p (s ++ t) = true := by
  induction p generalizing s with
  | nil => rfl
  | cons a as ih =>
    cases s with
    | nil => exact absurd h (by simp [listPre])
    | cons b bs =>
      simp only [listPre, Bool.and_eq_true] at h
      simp only [List.cons_append, listPre, Bool.and_eq_true]
      exact ⟨h.1, ih bs h.2⟩

theorem listIn_self (p : List Char) : listIn p p = true := by
  cases p with
  | nil => rfl
  | cons c cs => simp [listIn, listPre_self]

theorem listIn_mono_right (p s t : List Char) (h : listIn p s = true) :
    listIn p (s ++ t) = true := by
  induction s with
  | nil =>
    cases p with
    | nil => exact listIn_nil_left t
    | cons c cs => exact absurd h (by simp [listIn, listPre])
  | cons b bs ih =>
    simp only [listIn, Bool.or_eq_true] at h
    simp only [List.cons_append, listIn, Bool.or_eq_true]
    rcases h with h | h
    · exact Or.inl (by simpa [List.cons_append] using listPre_append p (b :: bs) t h)
    · exact Or.inr (ih h)

theorem listIn_mono_left (p t s : List Char) (h : listIn p s = true) :
    listIn p (t ++ s) = true := by
  induction t with
  | nil => simpa using h
  | cons c cs ih =>
    simp only [List.cons_append, listIn, Bool.or_eq_true]
    exact Or.inr ih

theorem strIn_self (p : String) : strIn p p = true := listIn_self p.data

theorem strIn_append_of_right (p a b : String) (h : strIn p b = true) :
    strIn p (a ++ b) = true := listIn_mono_left p.data a.data b.data h

theorem strIn_append_of_left (p a b : String) (h : strIn p a = true) :
    strIn p (a ++ b) = true := listIn_mono_right p.data a.data b.data h

/-! ### Prefix helpers for the stability claim -/

theorem takeIsPre {α : Type} (n : Nat) (l : List α) : l.take n <+: l :=
  ⟨l.drop n, List.take_append_drop n l⟩

theorem filterIsPre {α : Type} (p : α → Bool) {l₁ l₂ : List α} (h : l₁ <+: l₂) :
    l₁.filter p <+: l₂.filter p := by
  obtain ⟨t, rfl⟩ := h
  exact ⟨t.filter p, (List.filter_append _ _).symm⟩

theorem mapIsPre {α β : Type} (f : α → β) {l₁ l₂ : List α} (h : l₁ <+: l₂) :
    l₁.map f <+: l₂.map f := by
  obtain ⟨t, rfl⟩ := h
  exact ⟨t.map f, (List.map_append _ _ _).symm⟩

theorem nilIsPre {α : Type} (l : List α) : ([] : List α) <+: l := ⟨l, rfl⟩

theorem filter_filter_of_imp {α : Type} (p q : α → Bool)
    (h : ∀ a, q a = true → p a = true) (l : List α) :
    (l.filter p).filter q = l.filter q := by
  induction l with
  | nil => rfl
  | cons a l ih =>
    by_cases hq : q a
    · have hp : p a = true := h a hq
      simp [List.filter_cons, hp, hq, ih]
    · by_cases hp : p a <;> simp [List.filter_cons, hp, hq, ih]

theorem filter_pyScored (query : String) (documents : List Document) (s : Int) :
    (pyScored query documents).filter (fun p => p.1 == s) =
      (documents.filter (fun d => docScore query d == s)).map
        (fun d => (docScore query d, d)) := by
  induction documents with
  | nil => rfl
  | cons d ds ih =>
    simp only [pyScored, List.map_cons, List.filter_cons] at *
    by_cases h : docScore query d == s
    · simp only [h, if_pos rfl]
      simp [ih, h]
    · simp only [h]
      simp [ih, h]

/-! ### Claim theorems -/

/-- Claim C1 (counterexample): as stated, the claim is false.  For the
query `"mammary old"`, the document `"mammary old"` contains the query as
an exact substring (score 19) while `"age breast"` does not (score 20:
the age and breast special bonuses fire on the query words `old` and
`mammary` without the document containing the query), so `run` ranks the
non-matching document strictly above the exact match. -/
theorem exact_match_can_be_outranked :
    strIn (pyLower "mammary old") (pyLower "mammary old") = true ∧
    strIn (pyLower "mammary old") (pyLower "age breast") = false ∧
    docScore "mammary old" (Document.mk "age breast" []) = 20 ∧
    docScore "mammary old" (Document.mk "mammary old" []) = 19 ∧
    runRetriever 3 "mammary old"
        [Document.mk "age breast" [], Document.mk "mammary old" []] =
      [Document.mk "age breast" [], Document.mk "mammary old" []] := by decide

/-- Claim C1 (amended): a document whose lowercased content contains the
full lowercased query scores at least 15, and the retriever's output is
ordered by non-increasing score, so such a document ranks at or above
every document scoring below 15; it can still rank below a non-matching
document whose accumulated keyword bonuses exceed its score. -/
theorem exact_match_scores_high_and_output_sorted (top_k : Nat) (query : String)
    (documents : List Document) (d : Document) (hd : d ∈ documents)
    (hm : strIn (pyLower query) (pyLower d.content) = true) :
    15 ≤ docScore query d ∧
    (runPairs top_k query documents).Pairwise (fun a b => b.1 ≤ a.1) ∧
    runRetriever top_k query documents = (runPairs top_k query documents).map Prod.snd :=
  ⟨docScore_ge_15_of_exact query d hm, runPairs_pairwise top_k query documents,
   runRetriever_eq_runPairs top_k query documents⟩

/-- Claim C1 (witness): the amended claim applied at a concrete corpus. -/
theorem exact_match_scores_high_and_output_sorted_witness :
    15 ≤ docScore "mammary old" (Document.mk "mammary old" []) ∧
    (runPairs 3 "mammary old"
        [Document.mk "age breast" [], Document.mk "mammary old" []]).Pairwise
      (fun a b => b.1 ≤ a.1) ∧
    runRetriever 3 "mammary old"
        [Document.mk "age breast" [], Document.mk "mammary old" []] =
      (runPairs 3 "mammary old"
        [Document.mk "age breast" [], Document.mk "mammary old" []]).map Prod.snd :=
  exact_match_scores_high_and_output_sorted 3 "mammary old"
    [Document.mk "age breast" [], Document.mk "mammary old" []]
    (Document.mk "mammary old" []) (by decide) (by decide)

/-- Claim C2: `run` returns at most `top_k` documents, and every returned
document is an element of the input corpus. -/
theorem rank_length_le_topk_and_mem_corpus (top_k : Nat) (query : String)
    (documents : List Document) (d : Document)
    (hd : d ∈ runRetriever top_k query documents) :
    (runRetriever top_k query documents).length ≤ top_k ∧ d ∈ documents := by
  constructor
  · rw [runRetriever_eq_runPairs, List.length_map]
    exact runPairs_length_le top_k query documents
  · rw [runRetriever_eq_runPairs] at hd
    obtain ⟨p, hp, rfl⟩ := List.mem_map.mp hd
    exact (mem_pyScored (mem_sortDesc.mp (mem_sortDesc_of_mem_runPairs hp))).1

/-- Claim C2 (witness): the claim applied at a concrete corpus. -/
theorem rank_length_le_topk_and_mem_corpus_witness :
    (runRetriever 1 "pain" [Document.mk "chest pain" []]).length ≤ 1 ∧
    Document.mk "chest pain" [] ∈ [Document.mk "chest pain" []] :=
  rank_length_le_topk_and_mem_corpus 1 "pain" [Document.mk "chest pain" []]
    (Document.mk "chest pain" []) (by decide)

/-- Claim C3: the sort is stable, so for every score value `s` the
documents of score `s` appear in `run`'s output as a prefix of the
score-`s` documents of the corpus in original corpus order (and the
document output is exactly the scored output with scores stripped). -/
theorem rank_equal_scores_keep_corpus_order (query : String) (documents : List Document)
    (top_k : Nat) (s : Int) :
    ((runPairs top_k query documents).filter (fun p => p.1 == s)).map Prod.snd <+:
      documents.filter (fun d => docScore query d == s) ∧
    runRetriever top_k query documents = (runPairs top_k query documents).map Prod.snd := by
  refine ⟨?_, runRetriever_eq_runPairs top_k query documents⟩
  have key : (sortDesc (pyScored query documents)).filter (fun p => p.1 == s) =
      (documents.filter (fun d => docScore query d == s)).map
        (fun d => (docScore query d, d)) := by
    rw [filter_sortDesc, filter_pyScored]
  have snd_cancel : ∀ l : List Document,
      (l.map (fun d => (docScore query d, d))).map Prod.snd = l := by
    intro l
    rw [List.map_map]
    have h : List.map (Prod.snd ∘ fun d => (docScore query d, d)) l = List.map id l :=
      List.map_congr_left (fun d _ => rfl)
    rw [h, List.map_id]
  have main : (((sortDesc (pyScored query documents)).take top_k).filter
      (fun p => p.1 == s)).map Prod.snd <+:
      documents.filter (fun d => docScore query d == s) := by
    have h1 := filterIsPre (fun p => p.1 == s)
      (takeIsPre top_k (sortDesc (pyScored query documents)))
    rw [key] at h1
    have h2 := mapIsPre Prod.snd h1
    rwa [snd_cancel] at h2
  simp only [runPairs]
  split
  · exact main
  · by_cases hs : 0 < s
    · have he : (((sortDesc (pyScored query documents)).take top_k).filter
          (fun p => decide (0 < p.1))).filter (fun p => p.1 == s) =
          ((sortDesc (pyScored query documents)).take top_k).filter
            (fun p => p.1 == s) :=
        filter_filter_of_imp _ _
          (fun a ha => by
            have h := beq_iff_eq.mp ha
            simp [h, hs]) _
      rw [he]
      exact main
    · have hnil : (((sortDesc (pyScored query documents)).take top_k).filter
          (fun p => decide (0 < p.1))).filter (fun p => p.1 == s) = [] := by
        rw [List.filter_eq_nil_iff]
        intro p hp
        have hpos := (List.mem_filter.mp hp).2
        simp only [decide_eq_true_eq] at hpos
        intro hbeq
        have h := beq_iff_eq.mp hbeq
        omega
      rw [hnil]
      exact nilIsPre _

/-- Claim C4 (counterexample): as stated, the claim is false.  Python's
`"" in s` is true for every `s`, so with an empty query every document
receives the exact-phrase bonus: the score is 15, not 0, and the
fallback branch does not execute. -/
theorem empty_query_scores_fifteen :
    docScore "" (Document.mk "a" []) = 15 ∧
    usesFallback 3 "" [Document.mk "a" []] = false := by decide

/-- Claim C4 (amended): for the empty query and a non-empty corpus (and a
positive `top_k`), every document scores exactly 15 (the empty string is
a substring of everything, and no other bonus can fire), the fallback
path does not engage, and `run` still returns the first `top_k`
documents in original corpus order. -/
theorem empty_query_returns_first_topk (top_k : Nat) (documents : List Document)
    (h1 : documents ≠ []) (h2 : 0 < top_k) :
    (∀ d ∈ documents, docScore "" d = 15) ∧
    usesFallback top_k "" documents = false ∧
    runRetriever top_k "" documents = documents.take top_k := by
  have hall : ∀ d ∈ documents, docScore "" d = 15 := fun d _ => docScore_empty_query d
  have hsort : sortDesc (pyScored "" documents) = pyScored "" documents :=
    sortDesc_pyScored_const "" documents 15 hall
  have htakesc : ∀ p ∈ (pyScored "" documents).take top_k, p.1 = 15 := by
    intro p hp
    obtain ⟨hmem, hsc⟩ := mem_pyScored (List.mem_of_mem_take hp)
    rw [hsc]
    exact docScore_empty_query p.2
  have hfil : ((pyScored "" documents).take top_k).filter (fun p => decide (0 < p.1)) =
      (pyScored "" documents).take top_k :=
    List.filter_eq_self.mpr (fun p hp => by simp [htakesc p hp])
  have hne : (pyScored "" documents).take top_k ≠ [] := take_pyScored_ne_nil h1 h2
  have hdtne : documents.take top_k ≠ [] := by
    rw [Ne, List.take_eq_nil_iff]
    push_neg
    exact ⟨by omega, h1⟩
  refine ⟨hall, ?_, ?_⟩
  · simp only [usesFallback]
    rw [hsort, hfil]
    have hie : ((pyScored "" documents).take top_k).isEmpty = false :=
      Bool.eq_false_iff.mpr (fun h => hne (List.isEmpty_iff.mp h))
    rw [hie]
    simp
  · simp only [runRetriever]
    rw [hsort, hfil, List.map_take, map_snd_pyScored]
    rw [if_neg (fun hc => hdtne hc.1)]

/-- Claim C4 (witness): the amended claim applied at a concrete corpus. -/
theorem empty_query_returns_first_topk_witness :
    (∀ d ∈ [Document.mk "a" [], Document.mk "b" []], docScore "" d = 15) ∧
    usesFallback 1 "" [Document.mk "a" [], Document.mk "b" []] = false ∧
    runRetriever 1 "" [Document.mk "a" [], Document.mk "b" []] =
      [Document.mk "a" [], Document.mk "b" []].take 1 :=
  empty_query_returns_first_topk 1 [Document.mk "a" [], Document.mk "b" []]
    (by decide) (by decide)

/-- Claim C5: a document whose lowercased content contains the full
lowercased query as a substring scores at least 15. -/
theorem exact_substring_score_at_least_15 (query : String) (documents : List Document)
    (d : Document) (hd : d ∈ documents)
    (hm : strIn (pyLower query) (pyLower d.content) = true) :
    15 ≤ docScore query d :=
  docScore_ge_15_of_exact query d hm

/-- Claim C5 (witness): the claim applied at a concrete document. -/
theorem exact_substring_score_at_least_15_witness :
    15 ≤ docScore "age" (Document.mk "age" []) :=
  exact_substring_score_at_least_15 "age" [Document.mk "age" []]
    (Document.mk "age" []) (by decide) (by decide)

/-- Claim C6 (code bug): `_extract_sex` extends its result with the raw
`findall` matches, so the two-group pattern
`(\d+)[-\s]year[s]?\s*old\s*(male|female|man|woman)` puts a tuple — not
a string — into the returned set, contradicting the `set<string>`
extraction contract (the tuple normalization that `_extract_ages`
performs is missing). -/
theorem extract_sex_returns_tuple :
    PyVal.pair "74" "woman" ∈ extract_sex [Document.mk "74 years old woman" []] ∧
    PyVal.s "woman" ∈ extract_sex [Document.mk "74 years old woman" []] := by decide

/-- Claim C7: the round-trip scenario.  On the one-document corpus
`"A 74-year-old woman with breast cancer."`, age extraction yields both
`"74"` and `"74-year-old woman"`, and ranking with the query
`"74-year-old"` and `top_k = 3` returns exactly that document with a
score of at least 15 (it is 35: exact phrase 15, patient category 8,
word overlap 2, age special bonus 10). -/
theorem age_roundtrip_scenario :
    "74" ∈ extract_ages [Document.mk "A 74-year-old woman with breast cancer." []] ∧
    "74-year-old woman" ∈
      extract_ages [Document.mk "A 74-year-old woman with breast cancer." []] ∧
    runRetriever 3 "74-year-old"
        [Document.mk "A 74-year-old woman with breast cancer." []] =
      [Document.mk "A 74-year-old woman with breast cancer." []] ∧
    15 ≤ docScore "74-year-old"
      (Document.mk "A 74-year-old woman with breast cancer." []) := by decide

/-- Claim C8 (counterexample): as stated, the claim is false for the
extraction side.  `"prognosis"` names no category of either fixed table,
yet `extract_specific_info` returns the empty mapping with no error
value at all — a silent empty result. -/
theorem extract_specific_info_silent_on_unknown :
    ("prognosis" ∈ keyword_categories.map Prod.fst → False) ∧
    ("prognosis" ∈ extraction_categories → False) ∧
    extract_specific_info [Document.mk "74 years old woman" []] "prognosis" = [] := by
  decide

/-- Claim C8 (amended): the keyword-search side honours the claim: for
every category name outside the fixed table, `search_by_category`
returns the error dictionary whose message names the unknown category
and lists every valid category name; the extractor's
`extract_specific_info`, by contrast, silently returns an empty mapping
for a query mentioning no known category. -/
theorem search_by_category_unknown_reports_error (documents : List Document)
    (category : String)
    (h : (keyword_categories.map Prod.fst).contains category = false) :
    search_by_category documents category = CatSearchOut.err (categoryErrorMsg category) ∧
    strIn category (categoryErrorMsg category) = true ∧
    ∀ k ∈ keyword_categories.map Prod.fst, strIn k (categoryErrorMsg category) = true := by
  refine ⟨?_, ?_, ?_⟩
  · simp only [search_by_category]
    rw [h]
    simp
  · show strIn category (("Category \"" ++ category) ++ categoryErrorTail) = true
    exact strIn_append_of_left _ _ _ (strIn_append_of_right _ _ _ (strIn_self category))
  · intro k hk
    show strIn k (("Category \"" ++ category) ++ categoryErrorTail) = true
    refine strIn_append_of_right _ _ _ ?_
    fin_cases hk <;> decide

/-- Claim C8 (witness): the amended claim applied at a concrete unknown
category name. -/
theorem search_by_category_unknown_reports_error_witness :
    search_by_category [] "prognosis" = CatSearchOut.err (categoryErrorMsg "prognosis") ∧
    strIn "prognosis" (categoryErrorMsg "prognosis") = true ∧
    ∀ k ∈ keyword_categories.map Prod.fst,
      strIn k (categoryErrorMsg "prognosis") = true :=
  search_by_category_unknown_reports_error [] "prognosis" (by decide)

/-- Claim C9: ranking over an empty corpus returns the empty sequence
(and, being a total function, raises nothing). -/
theorem rank_empty_corpus_returns_empty (top_k : Nat) (query : String) :
    runRetriever top_k query [] = [] := by
  simp [runRetriever, pyScored, sortDesc]

/-- Claim C10 (counterexample): as stated, the claim is false: on the
empty corpus every document's score is vacuously 0, yet the fallback
branch does not execute (its condition also requires a non-empty
corpus), so "the fallback branch executes exactly when every document's
score equals 0" fails. -/
theorem fallback_not_iff_on_empty_corpus :
    (([] : List Document).all fun d => docScore "hello" d == 0) = true ∧
    usesFallback 3 "hello" [] = false := by decide

/-- Claim C10 (amended): every document score is a sum of non-negative
bonuses and hence `≥ 0`; for a non-empty corpus and positive `top_k`,
the fallback branch executes exactly when every document's score equals
0, and in that case the returned documents are the first `top_k` in
original corpus order. -/
theorem scores_nonneg_and_fallback_characterization (top_k : Nat) (query : String)
    (documents : List Document) (h1 : documents ≠ []) (h2 : 0 < top_k) :
    (∀ d ∈ documents, 0 ≤ docScore query d) ∧
    (usesFallback top_k query documents = true ↔
      ∀ d ∈ documents, docScore query d = 0) ∧
    (usesFallback top_k query documents = true →
      runRetriever top_k query documents = documents.take top_k) :=
  ⟨fun d _ => docScore_nonneg query d,
   fallback_iff_all_zero top_k query documents h1 h2,
   fallback_output top_k query documents h1 h2⟩

/-- Claim C10 (witness): the amended claim applied at a concrete corpus
whose only document scores zero. -/
theorem scores_nonneg_and_fallback_characterization_witness :
    (∀ d ∈ [Document.mk "zzz" []], 0 ≤ docScore "hello" d) ∧
    (usesFallback 1 "hello" [Document.mk "zzz" []] = true ↔
      ∀ d ∈ [Document.mk "zzz" []], docScore "hello" d = 0) ∧
    (usesFallback 1 "hello" [Document.mk "zzz" []] = true →
      runRetriever 1 "hello" [Document.mk "zzz" []] =
        [Document.mk "zzz" []].take 1) :=
  scores_nonneg_and_fallback_characterization 1 "hello" [Document.mk "zzz" []]
    (by decide) (by decide)
